import Mathlib

/-!
Token Vault: verification of the encryption-at-rest module.

Shallow embedding of the Node.js credential-encryption module
(`getKey` / `encrypt` / `decrypt`, AES-256-GCM over scrypt-derived keys).

Modelling conventions:
* Byte buffers are `List Nat` with entries `< 256` where the source guarantees it.
* JavaScript strings at the vault boundary are `List Char`.
* `process.env.ENCRYPTION_KEY` is `Option (List Char)`: `none` models an unset
  variable; the truthiness test `!process.env.ENCRYPTION_KEY` rejects both
  `none` and `some []`.
* The cryptographic primitives supplied by Node's `crypto` library (scrypt,
  the AES-256-GCM keystream and its authentication tag) are not code of this
  repository; they are a parameter `CryptoPrim`, and each theorem assumes only
  the standard functional laws of those primitives it needs (stated as `Law…`
  predicates below).  AES-GCM is length-preserving and invertible on the
  keystream part, and the tag is a function of key, IV and ciphertext; the
  idealised laws `LawMACinj` (no tag collisions) model the cryptographic
  guarantee that is only computational in reality.
* Errors are the message strings of the thrown `Error` objects.  Both exported
  functions wrap every internal failure in a `catch` that rethrows a constant
  generic error, which the embedding reproduces with `encrypt` / `decrypt`
  wrapping `encryptRaw` / `decryptRaw`.
-/

namespace TokenVault

/-- Lowercase hex digit for a nibble, as produced by `Buffer.toString('hex')`. -/
def hexDigitChar (n : Nat) : Char :=
  if n < 10 then Char.ofNat (48 + n) else Char.ofNat (87 + n)

/-- Two lowercase hex characters encoding one byte. -/
def hexByte (b : Nat) : List Char :=
  [hexDigitChar (b / 16), hexDigitChar (b % 16)]

/-- `Buffer.toString('hex')`: lowercase hex, two characters per byte. -/
def hexEncode (bs : List Nat) : List Char :=
  (bs.map hexByte).flatten

/-- Numeric value of a hex character; Node accepts both cases. -/
def hexVal (c : Char) : Option Nat :=
  if 48 ≤ c.toNat ∧ c.toNat ≤ 57 then some (c.toNat - 48)
  else if 97 ≤ c.toNat ∧ c.toNat ≤ 102 then some (c.toNat - 87)
  else if 65 ≤ c.toNat ∧ c.toNat ≤ 70 then some (c.toNat - 55)
  else none

/-- `Buffer.from(s, 'hex')`: lenient pairwise decoding; decoding stops (without
an error) at the first pair containing a non-hex character, and a trailing
unpaired character is dropped. -/
def bufferFromHex : List Char → List Nat
  | c1 :: c2 :: rest =>
    match hexVal c1, hexVal c2 with
    | some h, some l => (16 * h + l) :: bufferFromHex rest
    | _, _ => []
  | _ => []

/-- JavaScript `String.prototype.split(':')`: `""` yields one empty segment,
adjacent separators yield empty segments. -/
def splitColon : List Char → List (List Char)
  | [] => [[]]
  | c :: cs =>
    if c = ':' then [] :: splitColon cs
    else
      match splitColon cs with
      | s :: ss => (c :: s) :: ss
      | [] => [[c]]

/-- The cryptographic primitives the module takes from Node's `crypto`
library: `scrypt password salt keyLen`, the GCM keystream encryption `E`, its
inverse `D`, and the GHASH authentication tag `MAC key iv ciphertext`. -/
structure CryptoPrim where
  scrypt : List Char → List Char → Nat → List Nat
  E : List Nat → List Nat → List Nat → List Nat
  D : List Nat → List Nat → List Nat → List Nat
  MAC : List Nat → List Nat → List Nat → List Nat

/-- The hardcoded salt `'shopify-app-salt'`. -/
def SALT : List Char := ("shopify-app-salt").data

/-- `getKey`: reject an unset or empty `ENCRYPTION_KEY` (JS truthiness), then
derive a 32-byte key with scrypt. -/
def getKey (prim : CryptoPrim) (env : Option (List Char)) :
    Except String (List Nat) :=
  match env with
  | none => .error "ENCRYPTION_KEY environment variable is not set"
  | some s =>
    if s = [] then .error "ENCRYPTION_KEY environment variable is not set"
    else .ok (prim.scrypt s SALT 32)

/-- Body of the `try` block of `encrypt`: derive the key, create the cipher
(which validates the key length and rejects an empty IV), encrypt, read the
tag, and join the three hex segments with `':'`.  The IV is a parameter here;
the source obtains it from `crypto.randomBytes(16)`. -/
def encryptRaw (prim : CryptoPrim) (env : Option (List Char))
    (iv : List Nat) (text : List Nat) : Except String (List Char) :=
  match getKey prim env with
  | .error e => .error e
  | .ok key =>
    if key.length ≠ 32 then .error "Invalid key length"
    else if iv = [] then .error "Invalid initialization vector"
    else
      .ok (hexEncode iv ++ ':' ::
           hexEncode (prim.MAC key iv (prim.E key iv text)) ++ ':' ::
           hexEncode (prim.E key iv text))

/-- `encrypt`: the `catch` block replaces every internal error with the
constant `Error('Failed to encrypt data')`. -/
def encrypt (prim : CryptoPrim) (env : Option (List Char))
    (iv : List Nat) (text : List Nat) : Except String (List Char) :=
  match encryptRaw prim env iv text with
  | .error _ => .error "Failed to encrypt data"
  | .ok b => .ok b

/-- Body of the `try` block of `decrypt`: derive the key, destructure the
first three colon segments (missing ones are `undefined`, modelled by the
default `[]`), reject falsy segments, hex-decode leniently, create the
decipher (key-length check, empty IV rejected), and authenticate: the GCM
`final()` succeeds exactly when the supplied tag equals the tag of the
received ciphertext under this key and IV, and then yields the keystream
decryption. -/
def decryptRaw (prim : CryptoPrim) (env : Option (List Char))
    (encryptedText : List Char) : Except String (List Nat) :=
  match getKey prim env with
  | .error e => .error e
  | .ok key =>
    let parts := splitColon encryptedText
    let ivHex := parts.getD 0 []
    let tagHex := parts.getD 1 []
    let ctHex := parts.getD 2 []
    if ivHex = [] ∨ tagHex = [] ∨ ctHex = [] then
      .error "Invalid encrypted text format"
    else
      let iv := bufferFromHex ivHex
      let authTag := bufferFromHex tagHex
      if key.length ≠ 32 then .error "Invalid key length"
      else if iv = [] then .error "Invalid initialization vector"
      else
        let ct := bufferFromHex ctHex
        if authTag = prim.MAC key iv ct then .ok (prim.D key iv ct)
        else .error "Unsupported state or unable to authenticate data"

/-- `decrypt`: the `catch` block replaces every internal error with the
constant `Error('Failed to decrypt data')`. -/
def decrypt (prim : CryptoPrim) (env : Option (List Char))
    (encryptedText : List Char) : Except String (List Nat) :=
  match decryptRaw prim env encryptedText with
  | .error _ => .error "Failed to decrypt data"
  | .ok b => .ok b

/-! ## Functional laws of the external cryptographic primitives -/

/-- GCM keystream decryption inverts encryption. -/
def LawDE (p : CryptoPrim) : Prop :=
  ∀ k iv m, p.D k iv (p.E k iv m) = m

/-- GCM (counter mode) is length-preserving. -/
def LawElen (p : CryptoPrim) : Prop :=
  ∀ k iv m, (p.E k iv m).length = m.length

/-- The keystream encryption of a byte string is a byte string. -/
def LawEbytes (p : CryptoPrim) : Prop :=
  ∀ k iv m, (∀ b ∈ m, b < 256) → ∀ b ∈ p.E k iv m, b < 256

/-- Authentication tags are byte strings. -/
def LawMACbytes (p : CryptoPrim) : Prop :=
  ∀ k iv c, ∀ b ∈ p.MAC k iv c, b < 256

/-- Authentication tags are nonempty. -/
def LawMACne (p : CryptoPrim) : Prop :=
  ∀ k iv c, p.MAC k iv c ≠ []

/-- GCM tags are 16 bytes. -/
def LawMAClen (p : CryptoPrim) : Prop :=
  ∀ k iv c, (p.MAC k iv c).length = 16

/-- Idealised collision-freeness of the authentication tag: the tag determines
key, IV and ciphertext.  (For real GCM this holds only computationally.) -/
def LawMACinj (p : CryptoPrim) : Prop :=
  ∀ k1 i1 c1 k2 i2 c2,
    p.MAC k1 i1 c1 = p.MAC k2 i2 c2 → k1 = k2 ∧ i1 = i2 ∧ c1 = c2

/-! ## Concrete primitive instances (used to witness the theorems)

`toyPrim` is a degenerate cipher (identity keystream, constant 16-byte tag):
it satisfies the correctness laws but not tag injectivity.  `injPrim` carries
an injectively encoded tag of unbounded length (a perfect MAC); no cipher with
fixed-size tags can be literally collision-free, so the two instances witness
different law sets. -/

def toyPrim : CryptoPrim where
  scrypt := fun _ _ n => List.replicate n 0
  E := fun _ _ m => m
  D := fun _ _ m => m
  MAC := fun _ _ _ => List.replicate 16 0

/-- Unary encoding of a natural number over the alphabet `{0, 1}`;
prefix-free. -/
def escNat (n : Nat) : List Nat := List.replicate n 1 ++ [0]

/-- Length-prefixed unary encoding of a byte list; injective with a
prefix-free image. -/
def encBytes (l : List Nat) : List Nat :=
  escNat l.length ++ (l.map escNat).flatten

/-- Parse one unary-encoded number. -/
def unNat : List Nat → Option (Nat × List Nat)
  | 0 :: r => some (0, r)
  | 1 :: r =>
    match unNat r with
    | some (n, r2) => some (n + 1, r2)
    | _ => none
  | _ => none

/-- Parse a fixed count of unary-encoded numbers. -/
def unList : Nat → List Nat → Option (List Nat × List Nat)
  | 0, r => some ([], r)
  | n + 1, r =>
    match unNat r with
    | some (x, r2) =>
      match unList n r2 with
      | some (xs, r3) => some (x :: xs, r3)
      | _ => none
    | _ => none

/-- Parse one `encBytes` block. -/
def decBytes (r : List Nat) : Option (List Nat × List Nat) :=
  match unNat r with
  | some (n, r2) => unList n r2
  | _ => none

def injPrim : CryptoPrim where
  scrypt := fun s _ n => ((s.map Char.toNat).take n) ++ List.replicate (n - s.length) 0
  E := fun _ _ m => m
  D := fun _ _ m => m
  MAC := fun k iv c => encBytes k ++ encBytes iv ++ encBytes c

/-- A concrete blob produced by `encrypt` under `injPrim` with secret `"1"`,
an all-zero 16-byte IV and the one-byte plaintext `[0]`. -/
def c2blob : List Char :=
  match encrypt injPrim (some ['1']) (List.replicate 16 0) [0] with
  | .ok b => b
  | .error _ => []

/-! ## Hex encoding lemmas -/

theorem hexVal_hexDigitChar {n : Nat} (h : n < 16) :
    hexVal (hexDigitChar n) = some n := by
  interval_cases n <;> rfl

theorem hexDigitChar_ne_colon {n : Nat} (h : n < 16) : hexDigitChar n ≠ ':' := by
  interval_cases n <;> decide

theorem hexEncode_cons (b : Nat) (t : List Nat) :
    hexEncode (b :: t) = hexDigitChar (b / 16) :: hexDigitChar (b % 16) :: hexEncode t := rfl

theorem hexEncode_nil : hexEncode [] = [] := rfl

theorem hexEncode_length (bs : List Nat) : (hexEncode bs).length = 2 * bs.length := by
  induction bs with
  | nil => rfl
  | cons b t ih => rw [hexEncode_cons]; simp [ih]; ring

theorem colon_not_mem_hexEncode {bs : List Nat} (h : ∀ b ∈ bs, b < 256) :
    ':' ∉ hexEncode bs := by
  induction bs with
  | nil => simp [hexEncode_nil]
  | cons b t ih =>
    have hb : b < 256 := h b (by simp)
    rw [hexEncode_cons]
    intro hc
    rcases List.mem_cons.mp hc with he | hc
    · exact hexDigitChar_ne_colon (show b / 16 < 16 by omega) he.symm
    · rcases List.mem_cons.mp hc with he | hc
      · exact hexDigitChar_ne_colon (show b % 16 < 16 by omega) he.symm
      · exact ih (fun x hx => h x (by simp [hx])) hc

theorem bufferFromHex_append_hexEncode (b : Nat) (hb : b < 256) (rest : List Char) :
    bufferFromHex (hexDigitChar (b / 16) :: hexDigitChar (b % 16) :: rest) =
      b :: bufferFromHex rest := by
  have h1 : b / 16 < 16 := by omega
  have h2 : b % 16 < 16 := by omega
  simp only [bufferFromHex, hexVal_hexDigitChar h1, hexVal_hexDigitChar h2]
  congr 1
  omega

theorem bufferFromHex_hexEncode {bs : List Nat} (h : ∀ b ∈ bs, b < 256) :
    bufferFromHex (hexEncode bs) = bs := by
  induction bs with
  | nil => rfl
  | cons b t ih =>
    rw [hexEncode_cons, bufferFromHex_append_hexEncode b (h b (by simp))]
    rw [ih (fun x hx => h x (by simp [hx]))]

theorem hexEncode_ne_nil {bs : List Nat} (h : bs ≠ []) : hexEncode bs ≠ [] := by
  cases bs with
  | nil => exact absurd rfl h
  | cons b t => rw [hexEncode_cons]; simp

theorem hexVal_isSome_of_mem_hexEncode {bs : List Nat} (h : ∀ b ∈ bs, b < 256)
    {c : Char} (hc : c ∈ hexEncode bs) : (hexVal c).isSome := by
  induction bs with
  | nil => simp [hexEncode_nil] at hc
  | cons b t ih =>
    rw [hexEncode_cons] at hc
    have hb : b < 256 := h b (by simp)
    rcases List.mem_cons.mp hc with he | hc
    · rw [he, hexVal_hexDigitChar (show b / 16 < 16 by omega)]; rfl
    · rcases List.mem_cons.mp hc with he | hc
      · rw [he, hexVal_hexDigitChar (show b % 16 < 16 by omega)]; rfl
      · exact ih (fun x hx => h x (by simp [hx])) hc

/-! ## splitColon lemmas -/

theorem splitColon_no_colon {a : List Char} (h : ':' ∉ a) : splitColon a = [a] := by
  induction a with
  | nil => rfl
  | cons c cs ih =>
    have hc : c ≠ ':' := fun hx => h (by simp [hx])
    have hcs : ':' ∉ cs := fun hx => h (by simp [hx])
    simp only [splitColon, if_neg hc, ih hcs]

theorem splitColon_append_colon {a : List Char} (h : ':' ∉ a) (r : List Char) :
    splitColon (a ++ ':' :: r) = a :: splitColon r := by
  induction a with
  | nil => simp [splitColon]
  | cons c cs ih =>
    have hc : c ≠ ':' := fun hx => h (by simp [hx])
    have hcs : ':' ∉ cs := fun hx => h (by simp [hx])
    simp only [List.cons_append, splitColon, if_neg hc]
    have h2 : splitColon (cs.append (':' :: r)) = cs :: splitColon r := ih hcs
    rw [h2]

theorem splitColon_three {a b c : List Char} (ha : ':' ∉ a) (hb : ':' ∉ b)
    (hc : ':' ∉ c) :
    splitColon (a ++ ':' :: b ++ ':' :: c) = [a, b, c] := by
  rw [show a ++ ':' :: b ++ ':' :: c = a ++ ':' :: (b ++ ':' :: c) by simp]
  rw [splitColon_append_colon ha, splitColon_append_colon hb, splitColon_no_colon hc]

/-! ## Characterisations of `encrypt` and `decrypt` -/

/-- `encrypt` succeeds exactly when a nonempty secret is configured, the
derived key has the cipher's key size and the IV is nonempty, and then the
result is the colon-joined hex triple (IV, tag, ciphertext). -/
theorem encrypt_ok_iff (prim : CryptoPrim) (env : Option (List Char))
    (iv text : List Nat) (b : List Char) :
    encrypt prim env iv text = .ok b ↔
      ∃ secret, env = some secret ∧ secret ≠ [] ∧
        (prim.scrypt secret SALT 32).length = 32 ∧ iv ≠ [] ∧
        b = hexEncode iv ++ ':' ::
            hexEncode (prim.MAC (prim.scrypt secret SALT 32) iv
              (prim.E (prim.scrypt secret SALT 32) iv text)) ++ ':' ::
            hexEncode (prim.E (prim.scrypt secret SALT 32) iv text) := by
  cases env with
  | none => simp [encrypt, encryptRaw, getKey]
  | some secret =>
    by_cases hs : secret = []
    · simp [encrypt, encryptRaw, getKey, hs]
    · simp only [encrypt, encryptRaw, getKey, if_neg hs]
      by_cases hk : (prim.scrypt secret SALT 32).length = 32
      · by_cases hiv : iv = []
        · simp [hk, hiv]
        · simp [hk, hiv, hs, eq_comm]
      · simp [hk]

/-- Every error surfaced by `encrypt` is the constant generic message of the
`catch` block. -/
theorem encrypt_error_eq {prim : CryptoPrim} {env : Option (List Char)}
    {iv text : List Nat} {e : String}
    (h : encrypt prim env iv text = .error e) : e = "Failed to encrypt data" := by
  unfold encrypt at h
  split at h <;> simp_all

/-- `encrypt` that does not succeed returns the generic error. -/
theorem encrypt_eq_error {prim : CryptoPrim} {env : Option (List Char)}
    {iv text : List Nat}
    (hno : ∀ b, encrypt prim env iv text ≠ .ok b) :
    encrypt prim env iv text = .error "Failed to encrypt data" := by
  cases hd : encrypt prim env iv text with
  | ok b => exact absurd hd (hno b)
  | error e => rw [← encrypt_error_eq hd]

/-- `decrypt` succeeds exactly when a nonempty secret is configured, the first
three colon segments are nonempty, the derived key has the cipher's key size,
the decoded IV is nonempty, and the decoded tag authenticates the decoded
ciphertext; the result is then the keystream decryption. -/
theorem decrypt_ok_iff (prim : CryptoPrim) (env : Option (List Char))
    (s : List Char) (m : List Nat) :
    decrypt prim env s = .ok m ↔
      ∃ secret, env = some secret ∧ secret ≠ [] ∧
        (prim.scrypt secret SALT 32).length = 32 ∧
        (splitColon s).getD 0 [] ≠ [] ∧
        (splitColon s).getD 1 [] ≠ [] ∧
        (splitColon s).getD 2 [] ≠ [] ∧
        bufferFromHex ((splitColon s).getD 0 []) ≠ [] ∧
        bufferFromHex ((splitColon s).getD 1 []) =
          prim.MAC (prim.scrypt secret SALT 32)
            (bufferFromHex ((splitColon s).getD 0 []))
            (bufferFromHex ((splitColon s).getD 2 [])) ∧
        m = prim.D (prim.scrypt secret SALT 32)
            (bufferFromHex ((splitColon s).getD 0 []))
            (bufferFromHex ((splitColon s).getD 2 [])) := by
  unfold decrypt decryptRaw getKey
  cases env with
  | none => simp
  | some secret =>
    by_cases hs : secret = []
    · simp [hs]
    · simp only [if_neg hs]
      constructor
      · intro h
        refine ⟨secret, rfl, hs, ?_⟩
        split at h
        · exact absurd h (by simp)
        · rename_i key heq
          obtain rfl : key = m := Except.ok.inj h
          split at heq
          · exact absurd heq (by simp)
          · split at heq
            · exact absurd heq (by simp)
            · split at heq
              · exact absurd heq (by simp)
              · split at heq
                · rename_i h0 hk hiv hmac
                  push_neg at h0
                  exact ⟨not_not.mp hk, h0.1, h0.2.1, h0.2.2, hiv, hmac,
                    (Except.ok.inj heq).symm⟩
                · exact absurd heq (by simp)
      · rintro ⟨sec, hsec, hsne, hk, h0, h1, h2, hiv, hmac, hm⟩
        obtain rfl : sec = secret := by exact (Option.some.inj hsec).symm
        rw [if_neg (by tauto : ¬((splitColon s).getD 0 [] = [] ∨
              (splitColon s).getD 1 [] = [] ∨ (splitColon s).getD 2 [] = []))]
        rw [if_neg (not_not_intro hk), if_neg hiv, if_pos hmac, hm]

/-- Every error surfaced by `decrypt` is the constant generic message of the
`catch` block. -/
theorem decrypt_error_eq {prim : CryptoPrim} {env : Option (List Char)}
    {s : List Char} {e : String}
    (h : decrypt prim env s = .error e) : e = "Failed to decrypt data" := by
  unfold decrypt at h
  split at h <;> simp_all

/-- `decrypt` that does not succeed returns the generic error. -/
theorem decrypt_eq_error {prim : CryptoPrim} {env : Option (List Char)}
    {s : List Char}
    (hno : ∀ m, decrypt prim env s ≠ .ok m) :
    decrypt prim env s = .error "Failed to decrypt data" := by
  cases hd : decrypt prim env s with
  | ok m => exact absurd hd (hno m)
  | error e => rw [← decrypt_error_eq hd]

/-! ## The round trip -/

/-- Core round trip: decrypting a blob produced by `encrypt` under the same
configuration returns the plaintext, provided the plaintext is nonempty (an
empty ciphertext segment would fail the falsiness check of `decrypt`). -/
theorem roundtrip_core {prim : CryptoPrim} {env : Option (List Char)}
    {iv P : List Nat} {blob : List Char}
    (hDE : LawDE prim) (hElen : LawElen prim) (hEb : LawEbytes prim)
    (hMACne : LawMACne prim) (hMACb : LawMACbytes prim)
    (hivb : ∀ b ∈ iv, b < 256) (hPb : ∀ b ∈ P, b < 256) (hP : P ≠ [])
    (hb : encrypt prim env iv P = .ok blob) :
    decrypt prim env blob = .ok P := by
  rw [encrypt_ok_iff] at hb
  obtain ⟨secret, henv, hsne, hk, hivne, rfl⟩ := hb
  have hctb : ∀ b ∈ prim.E (prim.scrypt secret SALT 32) iv P, b < 256 :=
    hEb _ _ _ hPb
  have hsplit : splitColon (hexEncode iv ++ ':' ::
      hexEncode (prim.MAC (prim.scrypt secret SALT 32) iv
        (prim.E (prim.scrypt secret SALT 32) iv P)) ++ ':' ::
      hexEncode (prim.E (prim.scrypt secret SALT 32) iv P)) =
      [hexEncode iv,
       hexEncode (prim.MAC (prim.scrypt secret SALT 32) iv
         (prim.E (prim.scrypt secret SALT 32) iv P)),
       hexEncode (prim.E (prim.scrypt secret SALT 32) iv P)] :=
    splitColon_three (colon_not_mem_hexEncode hivb)
      (colon_not_mem_hexEncode (hMACb _ _ _)) (colon_not_mem_hexEncode hctb)
  rw [decrypt_ok_iff]
  refine ⟨secret, henv, hsne, hk, ?_, ?_, ?_, ?_, ?_, ?_⟩ <;>
    simp only [hsplit, List.getD_cons_zero, List.getD_cons_succ]
  · exact hexEncode_ne_nil hivne
  · exact hexEncode_ne_nil (hMACne _ _ _)
  · refine hexEncode_ne_nil ?_
    intro hc
    have := hElen (prim.scrypt secret SALT 32) iv P
    rw [hc] at this
    exact hP (List.eq_nil_of_length_eq_zero this.symm)
  · rw [bufferFromHex_hexEncode hivb]
    exact hivne
  · rw [bufferFromHex_hexEncode hivb, bufferFromHex_hexEncode (hMACb _ _ _),
      bufferFromHex_hexEncode hctb]
  · rw [bufferFromHex_hexEncode hivb, bufferFromHex_hexEncode hctb, hDE]

/-! ## Tampering with a hex segment changes the decoded bytes -/

/-- Replacing one character of a hex encoding by a character with a different
hex value (or by a non-hex character, which truncates the lenient decoding)
always changes the decoded byte string. -/
theorem bufferFromHex_set_ne {bs : List Nat} (h : ∀ b ∈ bs, b < 256)
    {j : Nat} (hj : j < (hexEncode bs).length) {c : Char}
    (hdiff : hexVal c ≠ hexVal ((hexEncode bs).getD j ' ')) :
    bufferFromHex ((hexEncode bs).set j c) ≠ bs := by
  induction bs generalizing j with
  | nil => rw [hexEncode_nil] at hj; simp at hj
  | cons b t ih =>
    have hb : b < 256 := h b (by simp)
    have hqlt : b / 16 < 16 := by omega
    have hrlt : b % 16 < 16 := by omega
    rw [hexEncode_cons] at hj hdiff ⊢
    cases j with
    | zero =>
      rw [List.getD_cons_zero, hexVal_hexDigitChar hqlt] at hdiff
      intro heq
      rw [List.set_cons_zero] at heq
      cases hv : hexVal c with
      | none => simp [bufferFromHex, hv] at heq
      | some v =>
        rw [hv] at hdiff
        have hvne : v ≠ b / 16 := fun hx => hdiff (by rw [hx])
        simp only [bufferFromHex, hv, hexVal_hexDigitChar hrlt] at heq
        have : 16 * v + b % 16 = b := (List.cons.inj heq).1
        omega
    | succ j1 =>
      cases j1 with
      | zero =>
        rw [List.getD_cons_succ, List.getD_cons_zero, hexVal_hexDigitChar hrlt] at hdiff
        intro heq
        rw [List.set_cons_succ, List.set_cons_zero] at heq
        cases hv : hexVal c with
        | none => simp [bufferFromHex, hv, hexVal_hexDigitChar hqlt] at heq
        | some v =>
          rw [hv] at hdiff
          have hvne : v ≠ b % 16 := fun hx => hdiff (by rw [hx])
          simp only [bufferFromHex, hv, hexVal_hexDigitChar hqlt] at heq
          have : 16 * (b / 16) + v = b := (List.cons.inj heq).1
          omega
      | succ j2 =>
        rw [List.getD_cons_succ, List.getD_cons_succ] at hdiff
        intro heq
        rw [List.set_cons_succ, List.set_cons_succ] at heq
        rw [bufferFromHex_append_hexEncode b hb] at heq
        have htail := (List.cons.inj heq).2
        have hj2 : j2 < (hexEncode t).length := by
          simp only [List.length_cons] at hj
          omega
        exact ih (fun x hx => h x (by simp [hx])) hj2 hdiff htail

/-- Setting a position to a character different from `a` cannot introduce `a`. -/
theorem not_mem_set {l : List Char} {a c : Char} (hl : a ∉ l) (hc : a ≠ c)
    (j : Nat) : a ∉ l.set j c := by
  intro hmem
  rcases List.mem_or_eq_of_mem_set hmem with h2 | h2
  · exact hl h2
  · exact hc h2

/-! ## Laws of the concrete instances -/

theorem toyPrim_DE : LawDE toyPrim := fun _ _ _ => rfl

theorem toyPrim_Elen : LawElen toyPrim := fun _ _ _ => rfl

theorem toyPrim_Eb : LawEbytes toyPrim := fun _ _ _ h => h

theorem toyPrim_MACb : LawMACbytes toyPrim := by
  intro k iv c b hb
  simp only [toyPrim] at hb
  have := List.eq_of_mem_replicate hb
  omega

theorem toyPrim_MACne : LawMACne toyPrim := by
  intro k iv c
  simp [toyPrim]

theorem toyPrim_MAClen : LawMAClen toyPrim := by
  intro k iv c
  simp [toyPrim]

theorem unNat_escNat (n : Nat) (r : List Nat) :
    unNat (escNat n ++ r) = some (n, r) := by
  induction n with
  | zero => rfl
  | succ k ih =>
    have hsh : escNat (k + 1) ++ r = 1 :: (escNat k ++ r) := by
      simp [escNat, List.replicate_succ]
    rw [hsh]
    simp [unNat, ih]

theorem unList_flat (l r : List Nat) :
    unList l.length ((l.map escNat).flatten ++ r) = some (l, r) := by
  induction l generalizing r with
  | nil => rfl
  | cons x xs ih =>
    simp only [List.map_cons, List.flatten_cons, List.length_cons,
      List.append_assoc]
    simp [unList, unNat_escNat, ih]

theorem decBytes_encBytes (l r : List Nat) :
    decBytes (encBytes l ++ r) = some (l, r) := by
  simp [decBytes, encBytes, List.append_assoc, unNat_escNat, unList_flat]

theorem injPrim_DE : LawDE injPrim := fun _ _ _ => rfl

theorem injPrim_Elen : LawElen injPrim := fun _ _ _ => rfl

theorem injPrim_Eb : LawEbytes injPrim := fun _ _ _ h => h

theorem escNat_lt {n b : Nat} (h : b ∈ escNat n) : b < 256 := by
  simp only [escNat, List.mem_append, List.mem_singleton] at h
  rcases h with h | h
  · have := List.eq_of_mem_replicate h
    omega
  · omega

theorem encBytes_lt {l : List Nat} {b : Nat} (h : b ∈ encBytes l) : b < 256 := by
  simp only [encBytes, List.mem_append, List.mem_flatten] at h
  rcases h with h | ⟨a, ha, hb⟩
  · exact escNat_lt h
  · simp only [List.mem_map] at ha
    obtain ⟨x, -, rfl⟩ := ha
    exact escNat_lt hb

theorem injPrim_MACb : LawMACbytes injPrim := by
  intro k iv c b hb
  simp only [injPrim, List.mem_append] at hb
  rcases hb with (h | h) | h
  · exact encBytes_lt h
  · exact encBytes_lt h
  · exact encBytes_lt h

theorem injPrim_MACne : LawMACne injPrim := by
  intro k iv c
  simp [injPrim, encBytes, escNat]

theorem injPrim_MACinj : LawMACinj injPrim := by
  intro k1 i1 c1 k2 i2 c2 h
  simp only [injPrim] at h
  have h1 : decBytes (encBytes k1 ++ (encBytes i1 ++ encBytes c1)) =
      decBytes (encBytes k2 ++ (encBytes i2 ++ encBytes c2)) := by
    rw [← List.append_assoc, ← List.append_assoc, h]
  rw [decBytes_encBytes, decBytes_encBytes] at h1
  have hp1 := Option.some.inj h1
  have hk : k1 = k2 := congrArg Prod.fst hp1
  have h2 : encBytes i1 ++ encBytes c1 = encBytes i2 ++ encBytes c2 :=
    congrArg Prod.snd hp1
  have h3 : decBytes (encBytes i1 ++ encBytes c1) =
      decBytes (encBytes i2 ++ encBytes c2) := by rw [h2]
  rw [decBytes_encBytes, decBytes_encBytes] at h3
  have hp2 := Option.some.inj h3
  have hi : i1 = i2 := congrArg Prod.fst hp2
  have h4 : encBytes c1 = encBytes c2 := congrArg Prod.snd hp2
  have h5 : decBytes (encBytes c1 ++ []) = decBytes (encBytes c2 ++ []) := by
    rw [h4]
  rw [decBytes_encBytes, decBytes_encBytes] at h5
  have hc : c1 = c2 := congrArg Prod.fst (Option.some.inj h5)
  exact ⟨hk, hi, hc⟩

/-! ## Wrong key and tampering -/

/-- **C2 (amended)**: a blob produced by `encrypt` under secret `s1` fails to
decrypt under a secret `s2` whose scrypt-derived key differs, and replacing a
single character of any of the three hex segments by a character with a
different hex value (including any non-hex character other than the `':'`
separator) makes `decrypt` fail; in both cases the surfaced error is the
generic one.  An alteration that keeps the hex value (an ASCII case flip such
as `'a'` to `'A'`) is excluded: Node's hex decoding is case-insensitive and
such a blob still decrypts — see the counterexample for the original claim. -/
theorem claim_C2_amended {prim : CryptoPrim}
    (hMACb : LawMACbytes prim) (hMACinj : LawMACinj prim) (hEb : LawEbytes prim)
    {s1 s2 : List Char} {iv P : List Nat} {blob : List Char}
    (hivb : ∀ b ∈ iv, b < 256) (hPb : ∀ b ∈ P, b < 256)
    (hb : encrypt prim (some s1) iv P = .ok blob)
    (hkne : prim.scrypt s2 SALT 32 ≠ prim.scrypt s1 SALT 32) :
    decrypt prim (some s2) blob = .error "Failed to decrypt data" ∧
    ∀ j c, j < blob.length → blob.getD j ' ' ≠ ':' → c ≠ ':' →
      hexVal c ≠ hexVal (blob.getD j ' ') →
      decrypt prim (some s1) (blob.set j c) = .error "Failed to decrypt data" := by
  rw [encrypt_ok_iff] at hb
  obtain ⟨sec, hsec, hsne, hk, hivne, rfl⟩ := hb
  obtain rfl : s1 = sec := Option.some.inj hsec
  have hctb : ∀ b ∈ prim.E (prim.scrypt s1 SALT 32) iv P, b < 256 := hEb _ _ _ hPb
  set key := prim.scrypt s1 SALT 32 with hkey
  set ct := prim.E key iv P with hct
  set tag := prim.MAC key iv ct with htagdef
  have htagb : ∀ b ∈ tag, b < 256 := by rw [htagdef]; exact hMACb key iv ct
  have hAcf : ':' ∉ hexEncode iv := colon_not_mem_hexEncode hivb
  have hBcf : ':' ∉ hexEncode tag := colon_not_mem_hexEncode htagb
  have hCcf : ':' ∉ hexEncode ct := colon_not_mem_hexEncode hctb
  have hsplit :
      splitColon (hexEncode iv ++ ':' :: hexEncode tag ++ ':' :: hexEncode ct) =
        [hexEncode iv, hexEncode tag, hexEncode ct] :=
    splitColon_three hAcf hBcf hCcf
  constructor
  · apply decrypt_eq_error
    intro m hm
    rw [decrypt_ok_iff] at hm
    obtain ⟨sec2, hsec2, -, -, -, -, -, -, hmac, -⟩ := hm
    obtain rfl : s2 = sec2 := Option.some.inj hsec2
    rw [hsplit] at hmac
    simp only [List.getD_cons_zero, List.getD_cons_succ] at hmac
    rw [bufferFromHex_hexEncode hivb, bufferFromHex_hexEncode htagb,
        bufferFromHex_hexEncode hctb] at hmac
    rw [htagdef] at hmac
    exact hkne (hMACinj _ _ _ _ _ _ hmac.symm).1
  · intro j c hj hcol hc hval
    have hjlen := hj
    simp only [List.length_append, List.length_cons] at hjlen
    rcases Nat.lt_trichotomy j (hexEncode iv).length with hjA | hjA | hjA
    · -- the altered character is inside the IV segment
      have hjL : j < (hexEncode iv ++ ':' :: hexEncode tag).length := by
        simp only [List.length_append, List.length_cons]; omega
      rw [List.set_append, if_pos hjL, List.set_append, if_pos hjA]
      have hgd : ((hexEncode iv ++ ':' :: hexEncode tag) ++ ':' :: hexEncode ct).getD j ' '
          = (hexEncode iv).getD j ' ' := by
        rw [List.getD_append _ _ _ _ hjL, List.getD_append _ _ _ _ hjA]
      rw [hgd] at hval
      have hivne3 : bufferFromHex ((hexEncode iv).set j c) ≠ iv :=
        bufferFromHex_set_ne hivb hjA hval
      have hA2cf : ':' ∉ (hexEncode iv).set j c := not_mem_set hAcf (Ne.symm hc) j
      apply decrypt_eq_error
      intro m hm
      rw [decrypt_ok_iff] at hm
      obtain ⟨sec2, hsec2, -, -, -, -, -, -, hmac, -⟩ := hm
      obtain rfl : s1 = sec2 := Option.some.inj hsec2
      rw [splitColon_three hA2cf hBcf hCcf] at hmac
      simp only [List.getD_cons_zero, List.getD_cons_succ] at hmac
      rw [bufferFromHex_hexEncode htagb, bufferFromHex_hexEncode hctb] at hmac
      rw [htagdef] at hmac
      exact hivne3 ((hMACinj _ _ _ _ _ _ hmac).2.1).symm
    · -- the altered position is the first separator, excluded by `hcol`
      exfalso
      apply hcol
      have hjL : j < (hexEncode iv ++ ':' :: hexEncode tag).length := by
        simp only [List.length_append, List.length_cons]; omega
      rw [List.getD_append _ _ _ _ hjL]
      subst hjA
      rw [List.getD_append_right _ _ _ _ (Nat.le_refl _), Nat.sub_self,
        List.getD_cons_zero]
    · -- the altered position is past the IV segment
      rcases Nat.lt_trichotomy j ((hexEncode iv ++ ':' :: hexEncode tag).length)
        with hjL | hjL | hjL
      · -- inside the tag segment
        have hjL2 : (hexEncode iv).length + 1 ≤ j := hjA
        obtain ⟨i, hi⟩ : ∃ i, j - (hexEncode iv).length = i + 1 :=
          ⟨j - (hexEncode iv).length - 1, by omega⟩
        have hiB : i < (hexEncode tag).length := by
          simp only [List.length_append, List.length_cons] at hjL
          omega
        rw [List.set_append, if_pos hjL, List.set_append,
          if_neg (by omega : ¬j < (hexEncode iv).length), hi, List.set_cons_succ]
        have hgd : ((hexEncode iv ++ ':' :: hexEncode tag) ++ ':' :: hexEncode ct).getD j ' '
            = (hexEncode tag).getD i ' ' := by
          rw [List.getD_append _ _ _ _ hjL,
            List.getD_append_right _ _ _ _ (by omega : (hexEncode iv).length ≤ j),
            hi, List.getD_cons_succ]
        rw [hgd] at hval
        have hBne : bufferFromHex ((hexEncode tag).set i c) ≠ tag :=
          bufferFromHex_set_ne htagb hiB hval
        have hB2cf : ':' ∉ (hexEncode tag).set i c := not_mem_set hBcf (Ne.symm hc) i
        apply decrypt_eq_error
        intro m hm
        rw [decrypt_ok_iff] at hm
        obtain ⟨sec2, hsec2, -, -, -, -, -, -, hmac, -⟩ := hm
        obtain rfl : s1 = sec2 := Option.some.inj hsec2
        rw [splitColon_three hAcf hB2cf hCcf] at hmac
        simp only [List.getD_cons_zero, List.getD_cons_succ] at hmac
        rw [bufferFromHex_hexEncode hivb, bufferFromHex_hexEncode hctb] at hmac
        exact hBne (hmac.trans htagdef.symm)
      · -- the second separator, excluded by `hcol`
        exfalso
        apply hcol
        subst hjL
        rw [List.getD_append_right _ _ _ _ (Nat.le_refl _), Nat.sub_self,
          List.getD_cons_zero]
      · -- inside the ciphertext segment
        obtain ⟨i2, hi2⟩ : ∃ i2, j - (hexEncode iv ++ ':' :: hexEncode tag).length = i2 + 1 :=
          ⟨j - (hexEncode iv ++ ':' :: hexEncode tag).length - 1, by omega⟩
        have hLlen : (hexEncode iv ++ ':' :: hexEncode tag).length
            = (hexEncode iv).length + ((hexEncode tag).length + 1) := by
          simp only [List.length_append, List.length_cons]
        have hi2lt : i2 < (hexEncode ct).length := by omega
        rw [List.set_append, if_neg (by omega : ¬j < (hexEncode iv ++ ':' :: hexEncode tag).length),
          hi2, List.set_cons_succ]
        have hgd : ((hexEncode iv ++ ':' :: hexEncode tag) ++ ':' :: hexEncode ct).getD j ' '
            = (hexEncode ct).getD i2 ' ' := by
          rw [List.getD_append_right _ _ _ _ (by omega :
            (hexEncode iv ++ ':' :: hexEncode tag).length ≤ j), hi2, List.getD_cons_succ]
        rw [hgd] at hval
        have hCne : bufferFromHex ((hexEncode ct).set i2 c) ≠ ct :=
          bufferFromHex_set_ne hctb hi2lt hval
        have hC2cf : ':' ∉ (hexEncode ct).set i2 c := not_mem_set hCcf (Ne.symm hc) i2
        apply decrypt_eq_error
        intro m hm
        rw [decrypt_ok_iff] at hm
        obtain ⟨sec2, hsec2, -, -, -, -, -, -, hmac, -⟩ := hm
        obtain rfl : s1 = sec2 := Option.some.inj hsec2
        rw [splitColon_three hAcf hBcf hC2cf] at hmac
        simp only [List.getD_cons_zero, List.getD_cons_succ] at hmac
        rw [bufferFromHex_hexEncode hivb, bufferFromHex_hexEncode htagb] at hmac
        rw [htagdef] at hmac
        exact hCne ((hMACinj _ _ _ _ _ _ hmac).2.2).symm

/-! ## Claim theorems -/

/-- **C1**: for every nonempty plaintext `P`, with the configured secret set
and held fixed, `decrypt (encrypt P)` returns exactly `P`.  The IV stands for
the 16 random bytes drawn inside `encrypt`; the `Law…` hypotheses are the
functional contract of the external AES-256-GCM primitives, and the `< 256`
hypotheses state that plaintext and IV are byte strings. -/
theorem claim_C1_roundtrip {prim : CryptoPrim} {env : Option (List Char)}
    {iv P : List Nat} {blob : List Char}
    (hDE : LawDE prim) (hElen : LawElen prim) (hEb : LawEbytes prim)
    (hMACne : LawMACne prim) (hMACb : LawMACbytes prim)
    (hivb : ∀ b ∈ iv, b < 256) (hPb : ∀ b ∈ P, b < 256) (hP : P ≠ [])
    (hb : encrypt prim env iv P = .ok blob) :
    decrypt prim env blob = .ok P :=
  roundtrip_core hDE hElen hEb hMACne hMACb hivb hPb hP hb

/-- Witness for C1: a complete concrete round trip under `toyPrim`. -/
theorem claim_C1_roundtrip_witness :
    encrypt toyPrim (some ("k").data) (List.replicate 16 0) [65] =
      .ok (("00000000000000000000000000000000:00000000000000000000000000000000:41").data) ∧
    decrypt toyPrim (some ("k").data)
      (("00000000000000000000000000000000:00000000000000000000000000000000:41").data) =
      .ok [65] :=
  ⟨rfl,
   @claim_C1_roundtrip toyPrim (some ("k").data) (List.replicate 16 0) [65]
     (("00000000000000000000000000000000:00000000000000000000000000000000:41").data)
     toyPrim_DE toyPrim_Elen toyPrim_Eb toyPrim_MACne toyPrim_MACb
     (fun b hb => by have := List.eq_of_mem_replicate hb; omega)
     (by intro b hb; simp at hb; omega) (by simp) rfl⟩

/-- **C2 counterexample**: the claim states that decrypting any version of the
blob in which a single hex character has been altered fails and never returns
any plaintext.  But Node's hex decoding is case-insensitive: altering the hex
character at index 1 from `'a'` to `'A'` yields a different string that still
decodes to the same bytes, and `decrypt` returns the plaintext. -/
theorem claim_C2_case_flip_cex :
    encrypt toyPrim (some ("k").data) (List.replicate 16 10) [65] =
      .ok (("0a0a0a0a0a0a0a0a0a0a0a0a0a0a0a0a:00000000000000000000000000000000:41").data) ∧
    ((("0a0a0a0a0a0a0a0a0a0a0a0a0a0a0a0a:00000000000000000000000000000000:41").data).set 1 'A' ≠
      ("0a0a0a0a0a0a0a0a0a0a0a0a0a0a0a0a:00000000000000000000000000000000:41").data) ∧
    decrypt toyPrim (some ("k").data)
      ((("0a0a0a0a0a0a0a0a0a0a0a0a0a0a0a0a:00000000000000000000000000000000:41").data).set 1 'A') =
      .ok [65] :=
  ⟨rfl, by decide, rfl⟩

set_option maxRecDepth 100000 in
set_option maxHeartbeats 2000000 in
/-- Witness for the amended C2 under the collision-free instance `injPrim`:
the wrong-key conjunct at secrets `"2" ≠ "1"` and the tamper conjunct at
position `0` replaced by the non-hex character `'z'`. -/
theorem claim_C2_amended_witness :
    encrypt injPrim (some ['1']) (List.replicate 16 0) [0] = .ok c2blob ∧
    decrypt injPrim (some ['2']) c2blob = .error "Failed to decrypt data" ∧
    (0 < c2blob.length ∧ c2blob.getD 0 ' ' ≠ ':' ∧ ('z' : Char) ≠ ':' ∧
      hexVal 'z' ≠ hexVal (c2blob.getD 0 ' ')) ∧
    decrypt injPrim (some ['1']) (c2blob.set 0 'z') = .error "Failed to decrypt data" := by
  have hmain := @claim_C2_amended injPrim
    injPrim_MACb injPrim_MACinj injPrim_Eb ['1'] ['2']
    (List.replicate 16 0) [0] c2blob
    (fun b hb => by have := List.eq_of_mem_replicate hb; omega)
    (by intro b hb; simp at hb; omega) rfl (by decide)
  refine ⟨rfl, hmain.1, ⟨?_, ?_, by decide, ?_⟩, ?_⟩
  · decide
  · decide
  · decide
  · exact hmain.2 0 'z' (by decide) (by decide) (by decide) (by decide)

/-- **C3 counterexample**: the claim says the raised errors fall into three
distinguishable kinds, in particular that a caller can tell an authentication
failure from a configuration error.  In the code both `encrypt` and `decrypt`
collapse every failure into one constant generic error: here a configuration
failure (no secret configured, well-formed blob) and a structural failure
(an input with a single segment) produce the *same* error value. -/
theorem claim_C3_error_kinds_cex :
    decrypt toyPrim none
      (("00000000000000000000000000000000:00000000000000000000000000000000:41").data) =
      .error "Failed to decrypt data" ∧
    decrypt toyPrim (some ("k").data) (("notavalidblob").data) =
      .error "Failed to decrypt data" ∧
    decrypt toyPrim none
      (("00000000000000000000000000000000:00000000000000000000000000000000:41").data) =
      decrypt toyPrim (some ("k").data) (("notavalidblob").data) :=
  ⟨rfl, rfl, rfl⟩

/-- **C3 (amended)**: every failing `decrypt` call surfaces the single
constant error `'Failed to decrypt data'` and every failing `encrypt` call
surfaces `'Failed to encrypt data'`; configuration, structural and
authentication failures are therefore not distinguishable from the raised
error (only the encrypt-vs-decrypt origin is). -/
theorem claim_C3_amended (prim : CryptoPrim) (env : Option (List Char)) :
    (∀ s e, decrypt prim env s = .error e → e = "Failed to decrypt data") ∧
    (∀ iv t e, encrypt prim env iv t = .error e → e = "Failed to encrypt data") :=
  ⟨fun _ _ h => decrypt_error_eq h, fun _ _ _ h => encrypt_error_eq h⟩

/-- Witness for the amended C3 at concrete failing calls. -/
theorem claim_C3_amended_witness :
    decrypt toyPrim none (("x").data) = .error "Failed to decrypt data" ∧
    encrypt toyPrim none (List.replicate 16 0) [65] = .error "Failed to encrypt data" ∧
    "Failed to decrypt data" = "Failed to decrypt data" ∧
    "Failed to encrypt data" = "Failed to encrypt data" :=
  ⟨rfl, rfl,
   (claim_C3_amended toyPrim none).1 (("x").data) "Failed to decrypt data" rfl,
   (claim_C3_amended toyPrim none).2 (List.replicate 16 0) [65] "Failed to encrypt data" rfl⟩

/-- **C4 counterexample**: the claim says an input with more than 3
colon-delimited segments (or a non-hex segment) fails with the structural
error before any authenticated decryption.  The code destructures only the
first three segments: this four-segment input, whose fourth segment is not
even hex, decrypts successfully. -/
theorem claim_C4_malformed_cex :
    (splitColon
      (("00000000000000000000000000000000:00000000000000000000000000000000:41:zz").data)).length = 4 ∧
    decrypt toyPrim (some ("k").data)
      (("00000000000000000000000000000000:00000000000000000000000000000000:41:zz").data) =
      .ok [65] :=
  ⟨rfl, rfl⟩

/-- **C4 (amended)**: an input whose first three colon-delimited segments
include an empty or missing one is rejected with the generic decrypt error,
and the result does not depend on the cryptographic primitives (no
authenticated-decryption step influences it).  Segments past the third are
ignored, non-hex characters are decoded leniently rather than rejected, and
IV/tag lengths are not checked structurally. -/
theorem claim_C4_amended (prim prim2 : CryptoPrim) (env : Option (List Char))
    (s : List Char)
    (h : (splitColon s).getD 0 [] = [] ∨ (splitColon s).getD 1 [] = [] ∨
      (splitColon s).getD 2 [] = []) :
    decrypt prim env s = .error "Failed to decrypt data" ∧
    decrypt prim env s = decrypt prim2 env s := by
  have hall : ∀ p : CryptoPrim, decrypt p env s = .error "Failed to decrypt data" := by
    intro p
    apply decrypt_eq_error
    intro m hm
    rw [decrypt_ok_iff] at hm
    obtain ⟨sec, -, -, -, h0, h1, h2, -⟩ := hm
    tauto
  exact ⟨hall prim, (hall prim).trans (hall prim2).symm⟩

/-- Witness for the amended C4: a two-segment input. -/
theorem claim_C4_amended_witness :
    ((splitColon (("ab:cd").data)).getD 0 [] = [] ∨
      (splitColon (("ab:cd").data)).getD 1 [] = [] ∨
      (splitColon (("ab:cd").data)).getD 2 [] = []) ∧
    decrypt toyPrim (some ("k").data) (("ab:cd").data) = .error "Failed to decrypt data" :=
  ⟨Or.inr (Or.inr rfl),
   (claim_C4_amended toyPrim injPrim (some ("k").data) (("ab:cd").data)
     (Or.inr (Or.inr rfl))).1⟩

/-- **C5**: every blob returned by `encrypt` consists of exactly three
colon-delimited hex segments, in the order IV, tag, ciphertext; the first
decodes to exactly 16 bytes and so does the second (the blob has the shape
`<32 hex>:<32 hex>:<hex>`). -/
theorem claim_C5_blob_shape {prim : CryptoPrim} {env : Option (List Char)}
    {iv P : List Nat} {blob : List Char}
    (hMAClen : LawMAClen prim) (hMACb : LawMACbytes prim) (hEb : LawEbytes prim)
    (hivb : ∀ b ∈ iv, b < 256) (hiv16 : iv.length = 16) (hPb : ∀ b ∈ P, b < 256)
    (hb : encrypt prim env iv P = .ok blob) :
    ∃ s0 s1 s2, splitColon blob = [s0, s1, s2] ∧
      s0.length = 32 ∧ s1.length = 32 ∧
      (∀ ch ∈ s0, (hexVal ch).isSome) ∧ (∀ ch ∈ s1, (hexVal ch).isSome) ∧
      (∀ ch ∈ s2, (hexVal ch).isSome) ∧
      (bufferFromHex s0).length = 16 ∧ (bufferFromHex s1).length = 16 := by
  rw [encrypt_ok_iff] at hb
  obtain ⟨secret, henv, hsne, hk, hivne, rfl⟩ := hb
  have hctb := hEb (prim.scrypt secret SALT 32) iv P hPb
  have htagb := hMACb (prim.scrypt secret SALT 32) iv
    (prim.E (prim.scrypt secret SALT 32) iv P)
  refine ⟨_, _, _, splitColon_three (colon_not_mem_hexEncode hivb)
    (colon_not_mem_hexEncode htagb) (colon_not_mem_hexEncode hctb),
    ?_, ?_, ?_, ?_, ?_, ?_, ?_⟩
  · rw [hexEncode_length, hiv16]
  · rw [hexEncode_length, hMAClen]
  · exact fun ch hch => hexVal_isSome_of_mem_hexEncode hivb hch
  · exact fun ch hch => hexVal_isSome_of_mem_hexEncode htagb hch
  · exact fun ch hch => hexVal_isSome_of_mem_hexEncode hctb hch
  · rw [bufferFromHex_hexEncode hivb, hiv16]
  · rw [bufferFromHex_hexEncode htagb, hMAClen]

/-- Witness for C5 at a concrete encryption under `toyPrim`. -/
theorem claim_C5_blob_shape_witness :
    ∃ s0 s1 s2,
      splitColon
        (("00000000000000000000000000000000:00000000000000000000000000000000:41").data) =
        [s0, s1, s2] ∧
      s0.length = 32 ∧ s1.length = 32 ∧
      (∀ ch ∈ s0, (hexVal ch).isSome) ∧ (∀ ch ∈ s1, (hexVal ch).isSome) ∧
      (∀ ch ∈ s2, (hexVal ch).isSome) ∧
      (bufferFromHex s0).length = 16 ∧ (bufferFromHex s1).length = 16 :=
  @claim_C5_blob_shape toyPrim (some ("k").data) (List.replicate 16 0) [65]
    (("00000000000000000000000000000000:00000000000000000000000000000000:41").data)
    toyPrim_MAClen toyPrim_MACb toyPrim_Eb
    (fun b hb => by have := List.eq_of_mem_replicate hb; omega) (by simp)
    (by intro b hb; simp at hb; omega) rfl

/-- **C6 counterexample**: the claim says a call with an absent or empty
secret fails with `ConfigurationError`.  The internal missing-key error
(`'ENCRYPTION_KEY environment variable is not set'`) is indeed raised before
derivation, but the `catch` block replaces it: the surfaced error is the
generic one, identical to the error of an authentication failure under a
valid configuration, so no distinguishable configuration error reaches the
caller. -/
theorem claim_C6_missing_config_cex :
    encrypt toyPrim none (List.replicate 16 0) [65] = .error "Failed to encrypt data" ∧
    encrypt toyPrim none (List.replicate 16 0) [65] ≠
      .error "ENCRYPTION_KEY environment variable is not set" ∧
    decrypt toyPrim none
      (("00000000000000000000000000000000:00000000000000000000000000000000:41").data) =
      decrypt toyPrim (some ("k").data)
      (("00000000000000000000000000000000:00000000000000000000000000000001:41").data) :=
  ⟨rfl,
   fun h => absurd (Except.error.inj h) (by decide),
   rfl⟩

/-- **C6 (amended)**: if the configured secret is absent or empty, every call
to `encrypt` and `decrypt` fails; the failure is raised by `getKey` before
any key derivation or cipher operation (the result does not depend on the
cryptographic primitives), but it is surfaced as the generic wrapped error,
not as a distinguishable configuration error. -/
theorem claim_C6_amended (prim prim2 : CryptoPrim) (env : Option (List Char))
    (henv : env = none ∨ env = some []) (iv t : List Nat) (s : List Char) :
    encrypt prim env iv t = .error "Failed to encrypt data" ∧
    decrypt prim env s = .error "Failed to decrypt data" ∧
    encrypt prim env iv t = encrypt prim2 env iv t ∧
    decrypt prim env s = decrypt prim2 env s := by
  rcases henv with rfl | rfl <;> exact ⟨rfl, rfl, rfl, rfl⟩

/-- Witness for the amended C6 with an unset and an empty secret. -/
theorem claim_C6_amended_witness :
    (encrypt toyPrim none (List.replicate 16 0) [65] = .error "Failed to encrypt data" ∧
     decrypt toyPrim none (("a:b:c").data) = .error "Failed to decrypt data" ∧
     encrypt toyPrim none (List.replicate 16 0) [65] =
       encrypt injPrim none (List.replicate 16 0) [65] ∧
     decrypt toyPrim none (("a:b:c").data) = decrypt injPrim none (("a:b:c").data)) ∧
    (encrypt toyPrim (some []) (List.replicate 16 0) [65] = .error "Failed to encrypt data" ∧
     decrypt toyPrim (some []) (("a:b:c").data) = .error "Failed to decrypt data" ∧
     encrypt toyPrim (some []) (List.replicate 16 0) [65] =
       encrypt injPrim (some []) (List.replicate 16 0) [65] ∧
     decrypt toyPrim (some []) (("a:b:c").data) = decrypt injPrim (some []) (("a:b:c").data)) :=
  ⟨claim_C6_amended toyPrim injPrim none (Or.inl rfl) (List.replicate 16 0) [65] (("a:b:c").data),
   claim_C6_amended toyPrim injPrim (some []) (Or.inr rfl) (List.replicate 16 0) [65] (("a:b:c").data)⟩

/-- **C7**: the error surfaced by a failing `encrypt` does not depend on the
plaintext argument (two-run formulation): any two failing calls, whatever
their plaintexts and IVs, produce equal error messages — the constant
`'Failed to encrypt data'`, which in particular cannot embed the plaintext of
either call. -/
theorem claim_C7_error_plaintext_independent {prim : CryptoPrim}
    {env : Option (List Char)} {iv1 iv2 P1 P2 : List Nat} {e1 e2 : String}
    (h1 : encrypt prim env iv1 P1 = .error e1)
    (h2 : encrypt prim env iv2 P2 = .error e2) : e1 = e2 := by
  rw [encrypt_error_eq h1, encrypt_error_eq h2]

/-- Witness for C7: two failing calls with different plaintexts. -/
theorem claim_C7_error_plaintext_independent_witness :
    encrypt toyPrim none (List.replicate 16 0) [0] = .error "Failed to encrypt data" ∧
    encrypt toyPrim none (List.replicate 16 0) [1, 2] = .error "Failed to encrypt data" ∧
    ("Failed to encrypt data" : String) = "Failed to encrypt data" :=
  ⟨rfl, rfl,
   @claim_C7_error_plaintext_independent toyPrim none (List.replicate 16 0)
     (List.replicate 16 0) [0] [1, 2] "Failed to encrypt data"
     "Failed to encrypt data" rfl rfl⟩

/-- **C8**: `decrypt` reads only the first three colon-delimited segments and
silently ignores the rest: its result depends only on those segments, and
appending `':' ++ X` to a valid blob still decrypts to the same plaintext
instead of being rejected as malformed. -/
theorem claim_C8_extra_segments_ignored {prim : CryptoPrim} {env : Option (List Char)}
    {iv P : List Nat} {blob : List Char}
    (hDE : LawDE prim) (hElen : LawElen prim) (hEb : LawEbytes prim)
    (hMACne : LawMACne prim) (hMACb : LawMACbytes prim)
    (hivb : ∀ b ∈ iv, b < 256) (hPb : ∀ b ∈ P, b < 256) (hP : P ≠ [])
    (hb : encrypt prim env iv P = .ok blob) (X : List Char) :
    (∀ (prim2 : CryptoPrim) env2 s t,
        (splitColon s).getD 0 [] = (splitColon t).getD 0 [] →
        (splitColon s).getD 1 [] = (splitColon t).getD 1 [] →
        (splitColon s).getD 2 [] = (splitColon t).getD 2 [] →
        decrypt prim2 env2 s = decrypt prim2 env2 t) ∧
    decrypt prim env (blob ++ ':' :: X) = .ok P ∧
    decrypt prim env blob = .ok P := by
  have hgen : ∀ (prim2 : CryptoPrim) env2 s t,
      (splitColon s).getD 0 [] = (splitColon t).getD 0 [] →
      (splitColon s).getD 1 [] = (splitColon t).getD 1 [] →
      (splitColon s).getD 2 [] = (splitColon t).getD 2 [] →
      decrypt prim2 env2 s = decrypt prim2 env2 t := by
    intro prim2 env2 s t h0 h1 h2
    simp only [decrypt, decryptRaw]
    rw [h0, h1, h2]
  have hrt : decrypt prim env blob = .ok P :=
    roundtrip_core hDE hElen hEb hMACne hMACb hivb hPb hP hb
  refine ⟨hgen, ?_, hrt⟩
  rw [encrypt_ok_iff] at hb
  obtain ⟨secret, henv, hsne, hk, hivne, rfl⟩ := hb
  have hctb := hEb (prim.scrypt secret SALT 32) iv P hPb
  have htagb := hMACb (prim.scrypt secret SALT 32) iv
    (prim.E (prim.scrypt secret SALT 32) iv P)
  have hAcf := colon_not_mem_hexEncode hivb
  have hBcf := colon_not_mem_hexEncode htagb
  have hCcf := colon_not_mem_hexEncode hctb
  have hsplitb := splitColon_three hAcf hBcf hCcf
  have hshape : (hexEncode iv ++ ':' ::
      hexEncode (prim.MAC (prim.scrypt secret SALT 32) iv
        (prim.E (prim.scrypt secret SALT 32) iv P)) ++ ':' ::
      hexEncode (prim.E (prim.scrypt secret SALT 32) iv P)) ++ ':' :: X =
      hexEncode iv ++ ':' ::
        (hexEncode (prim.MAC (prim.scrypt secret SALT 32) iv
          (prim.E (prim.scrypt secret SALT 32) iv P)) ++ ':' ::
          (hexEncode (prim.E (prim.scrypt secret SALT 32) iv P) ++ ':' :: X)) := by
    simp [List.append_assoc]
  have hspX : splitColon ((hexEncode iv ++ ':' ::
      hexEncode (prim.MAC (prim.scrypt secret SALT 32) iv
        (prim.E (prim.scrypt secret SALT 32) iv P)) ++ ':' ::
      hexEncode (prim.E (prim.scrypt secret SALT 32) iv P)) ++ ':' :: X) =
      hexEncode iv ::
      hexEncode (prim.MAC (prim.scrypt secret SALT 32) iv
        (prim.E (prim.scrypt secret SALT 32) iv P)) ::
      hexEncode (prim.E (prim.scrypt secret SALT 32) iv P) :: splitColon X := by
    rw [hshape, splitColon_append_colon hAcf, splitColon_append_colon hBcf,
      splitColon_append_colon hCcf]
  have heq := hgen prim env
    ((hexEncode iv ++ ':' ::
        hexEncode (prim.MAC (prim.scrypt secret SALT 32) iv
          (prim.E (prim.scrypt secret SALT 32) iv P)) ++ ':' ::
        hexEncode (prim.E (prim.scrypt secret SALT 32) iv P)) ++ ':' :: X)
    (hexEncode iv ++ ':' ::
      hexEncode (prim.MAC (prim.scrypt secret SALT 32) iv
        (prim.E (prim.scrypt secret SALT 32) iv P)) ++ ':' ::
      hexEncode (prim.E (prim.scrypt secret SALT 32) iv P))
    (by rw [hspX, hsplitb]; rfl) (by rw [hspX, hsplitb]; rfl)
    (by rw [hspX, hsplitb]; rfl)
  exact heq.trans hrt

/-- Witness for C8: a valid blob with a junk fourth segment appended. -/
theorem claim_C8_extra_segments_ignored_witness :
    decrypt toyPrim (some ("k").data)
      (("00000000000000000000000000000000:00000000000000000000000000000000:41").data ++
        ':' :: ("zz").data) = .ok [65] ∧
    decrypt toyPrim (some ("k").data)
      (("00000000000000000000000000000000:00000000000000000000000000000000:41").data) =
      .ok [65] :=
  ⟨(@claim_C8_extra_segments_ignored toyPrim (some ("k").data)
      (List.replicate 16 0) [65]
      (("00000000000000000000000000000000:00000000000000000000000000000000:41").data)
      toyPrim_DE toyPrim_Elen toyPrim_Eb toyPrim_MACne toyPrim_MACb
      (fun b hb => by have := List.eq_of_mem_replicate hb; omega)
      (by intro b hb; simp at hb; omega) (by simp) rfl (("zz").data)).2.1,
   (@claim_C8_extra_segments_ignored toyPrim (some ("k").data)
      (List.replicate 16 0) [65]
      (("00000000000000000000000000000000:00000000000000000000000000000000:41").data)
      toyPrim_DE toyPrim_Elen toyPrim_Eb toyPrim_MACne toyPrim_MACb
      (fun b hb => by have := List.eq_of_mem_replicate hb; omega)
      (by intro b hb; simp at hb; omega) (by simp) rfl (("zz").data)).2.2⟩

/-- **C9**: `encrypt` accepts the empty plaintext and returns a blob whose
third (ciphertext) segment is empty, but `decrypt` rejects every input whose
third segment is empty or missing (the falsiness check), so the round trip
fails for the empty plaintext. -/
theorem claim_C9_empty_plaintext {prim : CryptoPrim} {env : Option (List Char)}
    {iv : List Nat} {secret : List Char}
    (hElen : LawElen prim) (hMACb : LawMACbytes prim)
    (hivb : ∀ b ∈ iv, b < 256) (hivne : iv ≠ [])
    (henv : env = some secret) (hsne : secret ≠ [])
    (hk : (prim.scrypt secret SALT 32).length = 32) :
    (∃ b, encrypt prim env iv [] = .ok b ∧ (splitColon b).getD 2 [] = []) ∧
    (∀ (prim2 : CryptoPrim) env2 s, (splitColon s).getD 2 [] = [] →
      decrypt prim2 env2 s = .error "Failed to decrypt data") ∧
    (∀ b, encrypt prim env iv [] = .ok b →
      decrypt prim env b = .error "Failed to decrypt data") := by
  have hgen : ∀ (prim2 : CryptoPrim) env2 s, (splitColon s).getD 2 [] = [] →
      decrypt prim2 env2 s = .error "Failed to decrypt data" := by
    intro prim2 env2 s h2
    apply decrypt_eq_error
    intro m hm
    rw [decrypt_ok_iff] at hm
    obtain ⟨sec, -, -, -, -, -, h2ne, -⟩ := hm
    exact h2ne h2
  have hct0 : prim.E (prim.scrypt secret SALT 32) iv [] = [] :=
    List.eq_nil_of_length_eq_zero (hElen (prim.scrypt secret SALT 32) iv [])
  have hb : encrypt prim env iv [] = .ok (hexEncode iv ++ ':' ::
      hexEncode (prim.MAC (prim.scrypt secret SALT 32) iv []) ++ ':' :: []) := by
    rw [encrypt_ok_iff]
    refine ⟨secret, henv, hsne, hk, hivne, ?_⟩
    rw [hct0, hexEncode_nil]
  have htagb := hMACb (prim.scrypt secret SALT 32) iv []
  have hsp : splitColon (hexEncode iv ++ ':' ::
      hexEncode (prim.MAC (prim.scrypt secret SALT 32) iv []) ++ ':' :: []) =
      [hexEncode iv, hexEncode (prim.MAC (prim.scrypt secret SALT 32) iv []), []] :=
    splitColon_three (colon_not_mem_hexEncode hivb)
      (colon_not_mem_hexEncode htagb) (by simp)
  refine ⟨⟨_, hb, by rw [hsp]; rfl⟩, hgen, ?_⟩
  intro b hbb
  rw [hb] at hbb
  obtain rfl := Except.ok.inj hbb
  exact hgen prim env _ (by rw [hsp]; rfl)


/-- Witness for C9: encrypting the empty plaintext under `toyPrim` and the
failing decryption of the resulting blob. -/
theorem claim_C9_empty_plaintext_witness :
    (∃ b, encrypt toyPrim (some ("k").data) (List.replicate 16 0) [] = .ok b ∧
      (splitColon b).getD 2 [] = []) ∧
    decrypt toyPrim (some ("k").data)
      (("00000000000000000000000000000000:00000000000000000000000000000000:").data) =
      .error "Failed to decrypt data" :=
  ⟨(@claim_C9_empty_plaintext toyPrim (some ("k").data) (List.replicate 16 0)
      (("k").data) toyPrim_Elen toyPrim_MACb
      (fun b hb => by have := List.eq_of_mem_replicate hb; omega)
      (by simp) rfl (by simp) rfl).1,
   (@claim_C9_empty_plaintext toyPrim (some ("k").data) (List.replicate 16 0)
      (("k").data) toyPrim_Elen toyPrim_MACb
      (fun b hb => by have := List.eq_of_mem_replicate hb; omega)
      (by simp) rfl (by simp) rfl).2.1 toyPrim (some ("k").data)
      (("00000000000000000000000000000000:00000000000000000000000000000000:").data) rfl⟩

/-- **C10**: the third (ciphertext) segment of a blob returned by `encrypt`
has exactly twice as many hex characters as the plaintext has bytes, so the
stored blob reveals the exact byte length of the encrypted credential. -/
theorem claim_C10_ct_segment_length {prim : CryptoPrim} {env : Option (List Char)}
    {iv P : List Nat} {blob : List Char}
    (hElen : LawElen prim) (hEb : LawEbytes prim) (hMACb : LawMACbytes prim)
    (hivb : ∀ b ∈ iv, b < 256) (hPb : ∀ b ∈ P, b < 256)
    (hb : encrypt prim env iv P = .ok blob) :
    ∃ s0 s1 s2, splitColon blob = [s0, s1, s2] ∧ s2.length = 2 * P.length := by
  rw [encrypt_ok_iff] at hb
  obtain ⟨secret, henv, hsne, hk, hivne, rfl⟩ := hb
  have hctb := hEb (prim.scrypt secret SALT 32) iv P hPb
  have htagb := hMACb (prim.scrypt secret SALT 32) iv
    (prim.E (prim.scrypt secret SALT 32) iv P)
  refine ⟨_, _, _, splitColon_three (colon_not_mem_hexEncode hivb)
    (colon_not_mem_hexEncode htagb) (colon_not_mem_hexEncode hctb), ?_⟩
  rw [hexEncode_length, hElen]

/-- Witness for C10: a 1-byte plaintext yields a 2-character third segment. -/
theorem claim_C10_ct_segment_length_witness :
    ∃ s0 s1 s2,
      splitColon
        (("00000000000000000000000000000000:00000000000000000000000000000000:41").data) =
        [s0, s1, s2] ∧ s2.length = 2 * ([65] : List Nat).length :=
  @claim_C10_ct_segment_length toyPrim (some ("k").data) (List.replicate 16 0) [65]
    (("00000000000000000000000000000000:00000000000000000000000000000000:41").data)
    toyPrim_Elen toyPrim_Eb toyPrim_MACb
    (fun b hb => by have := List.eq_of_mem_replicate hb; omega)
    (by intro b hb; simp at hb; omega) rfl

end TokenVault
